import Mathlib

/-!
Verification of `to_atom.py` (simonw/ollama-models-atom-feed).

This file shallowly embeds the program's data model and operations in Lean:

* the timestamp parser `parse_timestamp` (with an executable model of CPython's
  `datetime.strptime` restricted to the fixed format `"%b %d, %Y %I:%M %p %Z"`),
* the HTML record extractor `create_base_feed_and_entries` over a tree model of
  the parsed markup (BeautifulSoup queries become list searches over a node tree),
* URL resolution (`urllib.parse.urljoin`),
* the sort/select step of `html_to_atom` (Python's stable `list.sort` with
  `reverse=True` becomes an insertion sort with a key-descending relation),
* the writer `save_atom_feed` over a small object store modelling
  `xml.etree.ElementTree` element identity, `copy.deepcopy` and `append`.

Theorems at the end settle the frozen claims about the program.
-/

/-! ### Character and list-of-character helpers

The Python code works on `str`; we work on `List Char` (with thin `String`
wrappers) so that everything reduces well in the kernel.  ASCII classifier
functions are written directly on code points.
-/

/-- ASCII decimal digit test (`0`-`9`), as used by `re`'s `\d` on ASCII input. -/
def isDigitC (c : Char) : Bool := 48 ≤ c.toNat && c.toNat ≤ 57

/-- ASCII whitespace test, modelling `re`'s `\s` on the characters that occur
in the timestamp strings (tab, LF, VT, FF, CR, space). -/
def isWsC (c : Char) : Bool :=
  c.toNat == 32 || c.toNat == 9 || c.toNat == 10 || c.toNat == 11 ||
  c.toNat == 12 || c.toNat == 13

/-- ASCII letter test. -/
def isAlphaC (c : Char) : Bool :=
  (65 ≤ c.toNat && c.toNat ≤ 90) || (97 ≤ c.toNat && c.toNat ≤ 122)

/-- ASCII lower-casing, modelling `str.lower` on the ASCII strings involved. -/
def lowerC (c : Char) : Char :=
  if 65 ≤ c.toNat && c.toNat ≤ 90 then Char.ofNat (c.toNat + 32) else c

/-- Numeric value of a digit character. -/
def digitVal (c : Char) : Nat := c.toNat - 48

/-- Value of a big-endian digit string. -/
def valOfDigits (ds : List Char) : Nat := ds.foldl (fun a c => 10 * a + digitVal c) 0

/-- Helper for `natChars`: extract decimal digits most-significant first;
the fuel argument (`n` itself suffices) keeps the recursion structural. -/
def natCharsGo : Nat → Nat → List Char → List Char
  | 0, _, acc => acc
  | fuel + 1, n, acc =>
    if n = 0 then acc
    else natCharsGo fuel (n / 10) (Nat.digitChar (n % 10) :: acc)

/-- Big-endian decimal digit characters of `n` (empty for `n = 0`),
the digits produced by Python's decimal formatting of a positive integer. -/
def natChars (n : Nat) : List Char := natCharsGo n n []

/-- Python `str.strip()` (both-ends whitespace strip) on a character list. -/
def stripChars (l : List Char) : List Char :=
  ((l.dropWhile isWsC).reverse.dropWhile isWsC).reverse

/-- Python `str.strip()` on a `String`. -/
def pyStrip (s : String) : String := String.mk (stripChars s.data)

/-- Lower-case a character list. -/
def lowerL (l : List Char) : List Char := l.map lowerC

/-! ### Datetimes

`datetime` values are modelled by their wall-clock fields plus a flag recording
whether the value carries the `timezone.utc` tzinfo (`True` for aware values;
the program only ever attaches UTC).  Sub-second precision is not observable in
the program's comparisons of parsed values, so seconds are the finest field.
-/

/-- Model of a Python `datetime`: wall-clock fields and whether `tzinfo` is
`timezone.utc` (the only tzinfo the program ever attaches). -/
structure Datetime where
  year : Nat
  month : Nat
  day : Nat
  hour : Nat
  minute : Nat
  second : Nat
  tzUtc : Bool
deriving DecidableEq, Repr

/-- Comparison key of a datetime: Python compares aware-UTC datetimes
field-lexicographically. -/
def dtKey (t : Datetime) : List Nat :=
  [t.year, t.month, t.day, t.hour, t.minute, t.second]

/-- Lexicographic strict order on `List Nat` keys. -/
def listLt : List Nat → List Nat → Bool
  | _, [] => false
  | [], _ :: _ => true
  | a :: as, b :: bs => a < b || (a == b && listLt as bs)

/-- Lexicographic non-strict order on `List Nat` keys. -/
def listLe : List Nat → List Nat → Bool
  | [], _ => true
  | _ :: _, [] => false
  | a :: as, b :: bs => a < b || (a == b && listLe as bs)

/-! ### The timestamp parser (`parse_timestamp`, source lines 12-30)

`datetime.strptime(title_attr, "%b %d, %Y %I:%M %p %Z")` is modelled by an
executable recursive-descent parser.  Fidelity notes, keyed to CPython's
`_strptime`:

* the format's literal whitespace becomes `\s+` in the generated regex, so a
  separator consumes one or more whitespace characters;
* `%b` matches a locale month abbreviation case-insensitively (C locale:
  `Jan` … `Dec`, all three letters);
* `%d`, `%I`, `%M` match one or two digits within their ranges and `%Y`
  exactly four digits.  In the generated regex each of these fields is
  followed by a non-digit literal, so backtracking never helps and maximal
  digit munching (used here) is extensionally equivalent;
* `%p` matches `AM`/`PM` case-insensitively;
* `%Z` matches, case-insensitively, only the abbreviations `UTC`, `GMT` and
  the host's `time.tzname` entries (passed here as the parameter `ltz`,
  already lower-cased by the caller of the run); any other abbreviation makes
  the whole parse fail;
* after matching, `datetime`'s constructor validates the calendar date
  (`1 ≤ year`, day within the month's length), raising `ValueError` (parse
  failure) otherwise;
* the parsed value is naive; `parse_timestamp` then attaches `timezone.utc`.
-/

/-- Gregorian leap-year test (as in Python's `calendar`/`datetime`). -/
def isLeap (y : Nat) : Bool := y % 4 == 0 && (y % 100 != 0 || y % 400 == 0)

/-- Days in a month, as validated by `datetime`'s constructor. -/
def daysInMonth (y m : Nat) : Nat :=
  if m = 2 then (if isLeap y then 29 else 28)
  else if m = 4 ∨ m = 6 ∨ m = 9 ∨ m = 11 then 30
  else 31

/-- Lower-case month abbreviations of the C locale, in month order. -/
def monthAbbrsL : List (List Char) :=
  [['j','a','n'], ['f','e','b'], ['m','a','r'], ['a','p','r'], ['m','a','y'],
   ['j','u','n'], ['j','u','l'], ['a','u','g'], ['s','e','p'], ['o','c','t'],
   ['n','o','v'], ['d','e','c']]

/-- `%b`: a three-letter month abbreviation, case-insensitive; returns the
month number (1-12) and the unconsumed input. -/
def parseMonth (l : List Char) : Option (Nat × List Char) :=
  match l with
  | a :: b :: c :: rest =>
    match monthAbbrsL.findIdx? (fun w => w == [lowerC a, lowerC b, lowerC c]) with
    | some i => some (i + 1, rest)
    | none => none
  | _ => none

/-- A numeric field: munches the maximal digit run, requiring the digit count
in `[mn, mx]` and the value in `[lo, hi]`. -/
def munchNat (mn mx lo hi : Nat) (l : List Char) : Option (Nat × List Char) :=
  let ds := l.takeWhile isDigitC
  let v := valOfDigits ds
  if mn ≤ ds.length && ds.length ≤ mx && lo ≤ v && v ≤ hi then
    some (v, l.dropWhile isDigitC)
  else none

/-- `\s+`: at least one whitespace character, munched maximally. -/
def munchWs1 (l : List Char) : Option (List Char) :=
  match l with
  | c :: rest => if isWsC c then some (rest.dropWhile isWsC) else none
  | [] => none

/-- A literal character of the format string. -/
def expectChar (c : Char) (l : List Char) : Option (List Char) :=
  match l with
  | c' :: rest => if c' == c then some rest else none
  | [] => none

/-- `%p`: `AM`/`PM` case-insensitively; returns `true` for PM. -/
def parseAmPm (l : List Char) : Option (Bool × List Char) :=
  match l with
  | a :: b :: rest =>
    if [lowerC a, lowerC b] == ['a','m'] then some (false, rest)
    else if [lowerC a, lowerC b] == ['p','m'] then some (true, rest)
    else none
  | _ => none

/-- `%Z` acceptance: the remaining input, lower-cased, must be `utc`, `gmt`
or one of the host's `time.tzname` entries (`ltz`, lower-cased). -/
def tzAccepted (ltz : List String) (l : List Char) : Bool :=
  lowerL l == ['u','t','c'] || lowerL l == ['g','m','t'] ||
    ltz.any (fun s => lowerL s.data == lowerL l)

/-- Conversion of `%I`/`%p` to a 24-hour value, as in `_strptime`. -/
def to24 (h : Nat) (pm : Bool) : Nat :=
  if pm then (if h = 12 then 12 else h + 12)
  else (if h = 12 then 0 else h)

/-- `strptime` for the fixed format `"%b %d, %Y %I:%M %p %Z"`, producing the
fields `(year, month, day, hour24, minute)`, or `none` for `ValueError`. -/
def strptimeFields (l : List Char) (ltz : List String) :
    Option (Nat × Nat × Nat × Nat × Nat) := do
  let (mo, r1) ← parseMonth l
  let r2 ← munchWs1 r1
  let (d, r3) ← munchNat 1 2 1 31 r2
  let r4 ← expectChar ',' r3
  let r5 ← munchWs1 r4
  let (y, r6) ← munchNat 4 4 0 9999 r5
  let r7 ← munchWs1 r6
  let (h, r8) ← munchNat 1 2 1 12 r7
  let r9 ← expectChar ':' r8
  let (mi, r10) ← munchNat 1 2 0 59 r9
  let r11 ← munchWs1 r10
  let (pm, r12) ← parseAmPm r11
  let r13 ← munchWs1 r12
  if tzAccepted ltz r13 then
    if 1 ≤ y && 1 ≤ d && d ≤ daysInMonth y mo then
      some (y, mo, d, to24 h pm, mi)
    else none
  else none

/-- `datetime.strptime(s, "%b %d, %Y %I:%M %p %Z")`: a naive datetime on
success, `none` for `ValueError`. -/
def strptimeTS (s : String) (ltz : List String) : Option Datetime :=
  (strptimeFields s.data ltz).map fun (y, mo, d, h, mi) =>
    ⟨y, mo, d, h, mi, 0, false⟩

/-- `parse_timestamp` (source lines 12-30).  `now` models the value returned
by `datetime.now(timezone.utc)` during this call; `ltz` models the host's
`time.tzname`.  The second component records whether the warning on the
parse-failure path was printed.  Mirrors the source: a falsy argument (absent
or empty) returns `now` silently; a failed parse warns and returns `now`; a
successful parse has `timezone.utc` attached by `replace(tzinfo=...)`. -/
def parse_timestamp : Option String → Datetime → List String → Datetime × Bool
  | none, now, _ => (now, false)
  | some s, now, ltz =>
    if s = "" then (now, false)
    else
      match strptimeTS s ltz with
      | some dt => ({ dt with tzUtc := true }, false)
      | none => (now, true)

/-! ### URL resolution (`urllib.parse.urljoin`)

An executable model of CPython's `urljoin` with `allow_fragments=True`,
specialised to inputs without parameter strings (no `;` handling: the program
joins page URLs and hrefs, and for such inputs `urlparse`/`urlunparse` agree
with `urlsplit`/`urlunsplit`).  Netloc bracket validation and encoding
coercions are elided; the control flow (early returns for empty base or empty
url, scheme/netloc inheritance, dot-segment resolution) follows the source of
`urllib.parse`.
-/

/-- Split on the first occurrence of `c`: `some (before, after)`. -/
def splitOnFirst (c : Char) : List Char → Option (List Char × List Char)
  | [] => none
  | x :: xs =>
    if x == c then some ([], xs)
    else (splitOnFirst c xs).map (fun p => (x :: p.1, p.2))

/-- Python `str.split(sep)` for a one-character separator (on the empty string
it yields `[[]]`, like Python's `[""]`). -/
def splitAllOn (c : Char) (l : List Char) : List (List Char) :=
  match l with
  | [] => [[]]
  | x :: xs =>
    let r := splitAllOn c xs
    if x == c then [] :: r
    else
      match r with
      | h :: t => (x :: h) :: t
      | [] => [[x]]

/-- Python `sep.join` for a one-character separator. -/
def joinWith (c : Char) : List (List Char) → List Char
  | [] => []
  | [x] => x
  | x :: xs => x ++ c :: joinWith c xs

/-- Characters allowed after the first character of a URL scheme. -/
def isSchemeChar (c : Char) : Bool :=
  isAlphaC c || isDigitC c || c == '+' || c == '-' || c == '.'

/-- `urllib.parse.uses_relative`. -/
def usesRelative : List (List Char) :=
  ["", "ftp", "http", "gopher", "nntp", "imap", "wais", "file", "https",
   "shttp", "mms", "prospero", "rtsp", "rtspu", "sftp", "svn", "svn+ssh",
   "ws", "wss"].map String.data

/-- `urllib.parse.uses_netloc`. -/
def usesNetloc : List (List Char) :=
  ["", "ftp", "http", "gopher", "nntp", "telnet", "imap", "wais", "file",
   "mms", "https", "shttp", "snews", "prospero", "rtsp", "rtspu", "rsync",
   "svn", "svn+ssh", "sftp", "nfs", "git", "git+ssh", "ws", "wss"].map
    String.data

/-- `urlsplit(url, scheme=defScheme)`: `(scheme, netloc, path, query,
fragment)`. -/
def urlsplitL (url : List Char) (defScheme : List Char) :
    List Char × List Char × List Char × List Char × List Char :=
  let (scheme, rest) :=
    match splitOnFirst ':' url with
    | some (pre, post) =>
      match pre with
      | [] => (defScheme, url)
      | c0 :: cs =>
        if isAlphaC c0 && cs.all isSchemeChar then (lowerL (c0 :: cs), post)
        else (defScheme, url)
    | none => (defScheme, url)
  let (netloc, rest) :=
    match rest with
    | '/' :: '/' :: r =>
      (r.takeWhile (fun c => !(c == '/' || c == '?' || c == '#')),
       r.dropWhile (fun c => !(c == '/' || c == '?' || c == '#')))
    | _ => ([], rest)
  let (rest, fragment) :=
    match splitOnFirst '#' rest with
    | some (pre, post) => (pre, post)
    | none => (rest, [])
  let (path, query) :=
    match splitOnFirst '?' rest with
    | some (pre, post) => (pre, post)
    | none => (rest, [])
  (scheme, netloc, path, query, fragment)

/-- `urlunsplit`. -/
def urlunsplitL (scheme netloc path query fragment : List Char) : List Char :=
  let url :=
    if netloc ≠ [] ∨ (path ≠ [] ∧ path.take 2 = ['/', '/']) then
      '/' :: '/' :: netloc ++
        (if path ≠ [] ∧ path.take 1 ≠ ['/'] then '/' :: path else path)
    else path
  let url := if scheme ≠ [] then scheme ++ ':' :: url else url
  let url := if query ≠ [] then url ++ '?' :: query else url
  if fragment ≠ [] then url ++ '#' :: fragment else url

/-- The dot-segment resolution loop of `urljoin` (`.` skipped, `..` pops,
with `IndexError` on an empty stack ignored). -/
def resolveDots (segments : List (List Char)) : List (List Char) :=
  segments.foldl
    (fun acc seg =>
      if seg = ['.','.'] then acc.dropLast
      else if seg = ['.'] then acc
      else acc ++ [seg])
    []

/-- `urllib.parse.urljoin(base, url)` on character lists. -/
def urljoinL (base url : List Char) : List Char :=
  if base = [] then url
  else if url = [] then base
  else
    let (bscheme, bnetloc, bpath, bquery, _bfragment) := urlsplitL base []
    let (scheme, netloc, path, query, fragment) := urlsplitL url bscheme
    if scheme ≠ bscheme ∨ ¬ usesRelative.contains scheme then url
    else if usesNetloc.contains scheme ∧ netloc ≠ [] then
      urlunsplitL scheme netloc path query fragment
    else
      let netloc := if usesNetloc.contains scheme then bnetloc else netloc
      if path = [] then
        urlunsplitL scheme netloc bpath (if query = [] then bquery else query)
          fragment
      else
        let baseParts :=
          let bp := splitAllOn '/' bpath
          if bp.getLast? ≠ some [] then bp.dropLast else bp
        let segments :=
          if path.take 1 = ['/'] then splitAllOn '/' path
          else
            let segs := baseParts ++ splitAllOn '/' path
            match segs with
            | [] => []
            | s0 :: rest =>
              s0 :: (rest.dropLast.filter (fun s => s ≠ [])) ++ rest.getLast?.toList
        let resolved :=
          let r := resolveDots segments
          if segments.getLast? = some ['.','.'] ∨ segments.getLast? = some ['.']
          then r ++ [[]] else r
        urlunsplitL scheme netloc
          (if joinWith '/' resolved = [] then ['/'] else joinWith '/' resolved)
          query fragment

/-- `urljoin` on `String`s. -/
def urljoin (base url : String) : String :=
  String.mk (urljoinL base.data url.data)

/-! ### The parsed HTML tree and BeautifulSoup queries

A parsed document is a tree of element and text nodes.  Element attributes are
an association list of string values; the `class` attribute is kept parsed
into its whitespace-separated tokens (as BeautifulSoup stores it).
`find`/`find_all` search the node's descendants in document (pre-)order;
`.text` concatenates all descendant strings; `tag["attr"]` raises `KeyError`
when the attribute is absent, while `tag.get("attr")` returns `None`.
-/

mutual

/-- A node of the parsed document: an element with tag name, attributes,
class tokens and children, or a text node.  (The children are a mutually
defined forest so that the tree recursions below are structural and hence
evaluable.) -/
inductive HtmlNode where
  | elem (name : String) (attrs : List (String × String))
      (classes : List String) (children : HtmlForest)
  | text (s : String)

inductive HtmlForest where
  | nil
  | cons (n : HtmlNode) (rest : HtmlForest)

end

/-- Build a forest from a list of nodes. -/
def htmlForestOf : List HtmlNode → HtmlForest
  | [] => .nil
  | n :: ns => .cons n (htmlForestOf ns)

mutual

/-- All descendants of a node in document (pre-)order, the iteration order of
BeautifulSoup's `find`/`find_all` (the node itself excluded). -/
def HtmlNode.descendants : HtmlNode → List HtmlNode
  | .text _ => []
  | .elem _ _ _ cs => cs.descendantsF

/-- Descendants of a forest: each root followed by its own descendants. -/
def HtmlForest.descendantsF : HtmlForest → List HtmlNode
  | .nil => []
  | .cons c rest => c :: (c.descendants ++ rest.descendantsF)

end

mutual

/-- The characters of `.text` (`get_text()`): all strings in the subtree. -/
def HtmlNode.textChars : HtmlNode → List Char
  | .text s => s.data
  | .elem _ _ _ cs => cs.textCharsF

/-- The characters of `.text` of a forest. -/
def HtmlForest.textCharsF : HtmlForest → List Char
  | .nil => []
  | .cons c rest => c.textChars ++ rest.textCharsF

end

/-- `.text` of a node. -/
def HtmlNode.texts (n : HtmlNode) : String := String.mk n.textChars

/-- Tag name of a node (text nodes match no name). -/
def HtmlNode.tagName : HtmlNode → Option String
  | .elem nm _ _ _ => some nm
  | .text _ => none

/-- Attribute lookup (`tag.get`). -/
def HtmlNode.attr (n : HtmlNode) (a : String) : Option String :=
  match n with
  | .elem _ attrs _ _ => attrs.lookup a
  | .text _ => none

/-- Class tokens of a node. -/
def HtmlNode.classList : HtmlNode → List String
  | .elem _ _ cls _ => cls
  | .text _ => []

/-- BeautifulSoup matching of a `class_` pattern against a multi-valued
`class` attribute: an individual token equal to the pattern matches, and so
does the space-joined token list (which is how a multi-token pattern such as
`"flex items-center"` can match). -/
def matchClassPat (pat : String) (cls : List String) : Bool :=
  cls.contains pat || String.intercalate " " cls == pat

/-- `find(predicate)`: first matching descendant. -/
def findFirst (p : HtmlNode → Bool) (n : HtmlNode) : Option HtmlNode :=
  n.descendants.find? p

/-- `find_all(predicate)`: all matching descendants, in document order. -/
def findAll (p : HtmlNode → Bool) (n : HtmlNode) : List HtmlNode :=
  n.descendants.filter p

/-- `soup.find_all("li", attrs={"x-test-model": True})`. -/
def modelCond (n : HtmlNode) : Bool :=
  n.tagName == some "li" && (n.attr "x-test-model").isSome

/-- `model.find("span", attrs={"x-test-search-response-title": True})`. -/
def titleCond (n : HtmlNode) : Bool :=
  n.tagName == some "span" && (n.attr "x-test-search-response-title").isSome

/-- `model.find("a")`. -/
def anchorCond (n : HtmlNode) : Bool :=
  n.tagName == some "a"

/-- `model.find("p", class_="max-w-lg")`. -/
def descCond (n : HtmlNode) : Bool :=
  n.tagName == some "p" && matchClassPat "max-w-lg" n.classList

/-- `model.find("span", class_="flex items-center", title=True)`. -/
def dateCond (n : HtmlNode) : Bool :=
  n.tagName == some "span" && matchClassPat "flex items-center" n.classList &&
    (n.attr "title").isSome

/-- `model.find_all("span", attrs={"x-test-size": True})`. -/
def sizeCond (n : HtmlNode) : Bool :=
  n.tagName == some "span" && (n.attr "x-test-size").isSome

/-- `model.find_all("span", attrs={"x-test-capability": True})`. -/
def capCond (n : HtmlNode) : Bool :=
  n.tagName == some "span" && (n.attr "x-test-capability").isSome

/-- `model.find("span", attrs={"x-test-pull-count": True})`. -/
def pullCond (n : HtmlNode) : Bool :=
  n.tagName == some "span" && (n.attr "x-test-pull-count").isSome

/-- `model.find("span", attrs={"x-test-tag-count": True})`. -/
def tagCountCond (n : HtmlNode) : Bool :=
  n.tagName == some "span" && (n.attr "x-test-tag-count").isSome

/-! ### ElementTree elements and the feed shell

`xml.etree.ElementTree` elements are mutable objects; `save_atom_feed` relies
on `copy.deepcopy` to leave the shared base feed element untouched while
appending entries to the copy.  The program only ever mutates root elements
(it appends children to the feed element), so object identity is tracked at
root granularity: a store holds the root elements created so far, an element
value is an immutable tree, `deepcopy` pushes a copy as a fresh object and
`append` mutates one object in the store.
-/

/-- An XML element: tag, attributes, text, children. -/
inductive XTree where
  | node (tag : String) (attrs : List (String × String)) (text : Option String)
      (children : List XTree)

/-- Tag of an element. -/
def XTree.tagOf : XTree → String
  | .node t _ _ _ => t

/-- Children of an element. -/
def XTree.childrenOf : XTree → List XTree
  | .node _ _ _ cs => cs

/-- Append a list of children to an element. -/
def XTree.appendList : XTree → List XTree → XTree
  | .node t a x cs, l => .node t a x (cs ++ l)

/-- `element.append(child)` on a value. -/
def XTree.appendChild : XTree → XTree → XTree
  | .node t a x cs, c => .node t a x (cs ++ [c])

/-- The store of root elements; `ET.Element`/`copy.deepcopy` allocate here. -/
structure ETStore where
  objs : List XTree

/-- `copy.deepcopy(objs[i])`: push a copy of object `i` as a fresh object,
returning its index. -/
def ETStore.deepcopy (s : ETStore) (i : Nat) : ETStore × Nat :=
  (⟨s.objs ++ [s.objs.getD i (.node "" [] none [])]⟩, s.objs.length)

/-- `objs[i].append(child)`: mutate object `i`. -/
def ETStore.appendAt (s : ETStore) (i : Nat) (child : XTree) : ETStore :=
  ⟨s.objs.set i ((s.objs.getD i (.node "" [] none [])).appendChild child)⟩

/-- Zero-padded decimal rendering (`%02d`-style). -/
def padNat (w n : Nat) : List Char :=
  List.replicate (w - (natChars n).length) '0' ++ natChars n

/-- `datetime.isoformat()` of an aware-UTC value at second granularity. -/
def isoDatetime (t : Datetime) : String :=
  String.mk (padNat 4 t.year ++ '-' :: padNat 2 t.month ++ '-' :: padNat 2 t.day
    ++ 'T' :: padNat 2 t.hour ++ ':' :: padNat 2 t.minute ++ ':' ::
    padNat 2 t.second ++ (if t.tzUtc then "+00:00".data else []))

/-- The base feed shell built once per run (source lines 40-49): feed metadata
in creation order — title, id, author (with name child), self link, feed-level
updated timestamp (`now` is the build-time `datetime.now(timezone.utc)`). -/
def buildBaseShell (base_url : String) (now : Datetime) : XTree :=
  .node "feed" [("xmlns", "http://www.w3.org/2005/Atom")] none
    [.node "title" [] (some "Ollama models") [],
     .node "id" [] (some base_url) [],
     .node "author" [] none [.node "name" [] (some "Model Library") []],
     .node "link" [("href", base_url), ("rel", "self")] none [],
     .node "updated" [] (some (isoDatetime now)) []]

/-! ### The record extractor (`create_base_feed_and_entries`, lines 33-106)

Each matched `li` yields an `<entry>` element; the fields the program stores
in that element are collected in `AtomEntry`.  The one fallible step is
`model.find("a")["href"]`: `Tag.__getitem__` raises `KeyError` when the first
anchor of an item carries no `href` attribute, which aborts the whole
extraction (the caller's blanket handler then exits), so extraction runs in
`Except`.  `extractItem` is the loop body; `extractItemT` is the same
computation under the assumption that the `KeyError` branch is not taken
(anchors, if any, carry `href`), used to state theorems.
-/

/-- The data the program stores in one `<entry>` element. -/
structure AtomEntry where
  title : String
  id : String
  link : String
  summary : String
  updated : Datetime
  categories : List String
  content : String
deriving DecidableEq, Repr

/-- The `href` value used for an item: text of `model.find("a")["href"]` if
an anchor exists (KeyError when it lacks `href`), else `""`. -/
def itemHref (model : HtmlNode) : Except String String :=
  match findFirst anchorCond model with
  | some a =>
    match a.attr "href" with
    | some h => .ok h
    | none => .error "KeyError: 'href'"
  | none => .ok ""

/-- The body of the extraction loop for one matched item, given the `href`
value. -/
def extractItemWith (base_url : String) (now : Datetime) (ltz : List String)
    (model : HtmlNode) (href : String) : Datetime × AtomEntry :=
  let title :=
    match findFirst titleCond model with
    | some t => t.texts
    | none => "Unknown Model"
  let model_url := urljoin base_url href
  let description :=
    match findFirst descCond model with
    | some p => pyStrip p.texts
    | none => ""
  let titleAttr := (findFirst dateCond model).bind (fun n => n.attr "title")
  let updated := (parse_timestamp titleAttr now ltz).1
  let sizes := (findAll sizeCond model).map (fun n => pyStrip n.texts)
  let caps := (findAll capCond model).map (fun n => pyStrip n.texts)
  let pullTxt :=
    match findFirst pullCond model with
    | some n => n.texts
    | none => "N/A"
  let tagTxt :=
    match findFirst tagCountCond model with
    | some n => n.texts
    | none => "N/A"
  let content :=
    (if description == "" then "" else "<p>" ++ description ++ "</p>") ++
      ("<p>Pulls: " ++ pullTxt ++ "</p>") ++ ("<p>Tags: " ++ tagTxt ++ "</p>")
  (updated,
   { title := title, id := model_url, link := model_url,
     summary := description, updated := updated,
     categories := sizes ++ caps, content := content })

/-- One iteration of the extraction loop (may raise `KeyError`). -/
def extractItem (base_url : String) (now : Datetime) (ltz : List String)
    (model : HtmlNode) : Except String (Datetime × AtomEntry) :=
  (itemHref model).map (extractItemWith base_url now ltz model)

/-- The extraction loop body under the no-`KeyError` assumption (an absent
anchor still degrades to `href = ""`; an anchor's absent `href` is read as
`""` here, which agrees with `extractItem` whenever it does not raise). -/
def extractItemT (base_url : String) (now : Datetime) (ltz : List String)
    (model : HtmlNode) : Datetime × AtomEntry :=
  extractItemWith base_url now ltz model
    (match findFirst anchorCond model with
     | some a => (a.attr "href").getD ""
     | none => "")

/-- `true` when the item cannot raise `KeyError`: its first anchor, if any,
carries an `href` attribute. -/
def anchorHrefOk (model : HtmlNode) : Bool :=
  match findFirst anchorCond model with
  | some a => (a.attr "href").isSome
  | none => true

/-- The Python `for` loop: sequential, aborting on the first raised error. -/
def mapListE {α β : Type} (f : α → Except String β) :
    List α → Except String (List β)
  | [] => .ok []
  | x :: xs => do
    let y ← f x
    let ys ← mapListE f xs
    .ok (y :: ys)

/-- `create_base_feed_and_entries` (source lines 33-106): builds the base
shell and one `(updated_datetime, entry)` pair per matched model item, in
document order. -/
def create_base_feed_and_entries (soup : HtmlNode) (base_url : String)
    (now : Datetime) (ltz : List String) :
    Except String (XTree × List (Datetime × AtomEntry)) :=
  (mapListE (extractItem base_url now ltz) (findAll modelCond soup)).map
    (fun data => (buildBaseShell base_url now, data))

/-! ### Sorting and selection (`html_to_atom`, lines 186-195)

`entries_data.sort(key=lambda item: item[0], reverse=True)` is Python's
stable sort by the datetime key, descending (with `reverse=True` ties keep
their original relative order).  Any stable sort is extensionally equal to
any other, so it is modelled by `List.insertionSort` with the
key-descending relation `rDesc`, which inserts each element before the
first element whose key is not larger — preserving the original order of
equal keys.  The relation `rIdx` on index-annotated elements (key
descending, ties by original position) is used to state stability.
-/

/-- The comparison `list.sort(key=..., reverse=True)` sorts by: `p` precedes
`q` when `q`'s datetime key is at most `p`'s. -/
def rDesc (p q : Datetime × AtomEntry) : Prop :=
  listLe (dtKey q.1) (dtKey p.1) = true

instance : DecidableRel rDesc := fun p q => by unfold rDesc; infer_instance

/-- The strict-total order on index-annotated entries: key descending, ties
by original position.  Sorting by `rIdx` is the specification of a stable
descending sort. -/
def rIdx (x y : Nat × (Datetime × AtomEntry)) : Prop :=
  listLt (dtKey y.2.1) (dtKey x.2.1) = true ∨
    (dtKey x.2.1 = dtKey y.2.1 ∧ x.1 ≤ y.1)

instance : DecidableRel rIdx := fun x y => by unfold rIdx; infer_instance

/-- The sort at source line 188. -/
def pySortDesc (l : List (Datetime × AtomEntry)) : List (Datetime × AtomEntry) :=
  List.insertionSort rDesc l

/-- Lines 185-194 of `html_to_atom`: extract, sort descending, and take the
full and recent-20 entry lists. -/
def pipelineEntries (soup : HtmlNode) (base_url : String) (now : Datetime)
    (ltz : List String) :
    Except String (List (Datetime × AtomEntry) × List (Datetime × AtomEntry)) :=
  (create_base_feed_and_entries soup base_url now ltz).map
    (fun r => (pySortDesc r.2, (pySortDesc r.2).take 20))

/-! ### The writer (`save_atom_feed`, lines 109-146, and its two calls) -/

/-- One `<entry>` element as built by the extraction loop (sub-elements in
creation order; one `category` per size then per capability). -/
def entryToTree (e : AtomEntry) : XTree :=
  .node "entry" [] none
    ([.node "title" [] (some e.title) [],
      .node "id" [] (some e.id) [],
      .node "link" [("href", e.link)] none [],
      .node "summary" [] (some e.summary) [],
      .node "updated" [] (some (isoDatetime e.updated)) []] ++
     e.categories.map (fun t => .node "category" [("term", t)] none []) ++
     [.node "content" [("type", "html")] (some e.content) []])

/-- Outcome of one attempted file write: the open/write block is wrapped in
`try/except IOError`, so a failure is reported (the error message) and the
call returns normally. -/
structure WriteAttempt where
  filename : String
  ok : Bool
  errMsg : Option String
deriving DecidableEq, Repr

/-- `save_atom_feed(filename, base_feed_element, entries_data)` (lines
109-146): deep-copy the base element, append the entry elements to the copy,
serialize the copy, attempt the write (`fsOk` models whether the `open`/
`write` succeeds for a given filename; on failure the `IOError` is caught and
reported).  Returns the updated store, the serialized document and the write
record. -/
def save_atom_feed (filename : String) (s : ETStore) (baseIdx : Nat)
    (entries : List (Datetime × AtomEntry)) (fsOk : String → Bool) :
    ETStore × XTree × WriteAttempt :=
  let dc := s.deepcopy baseIdx
  let s2 := entries.foldl (fun st de => st.appendAt dc.2 (entryToTree de.2)) dc.1
  let doc := s2.objs.getD dc.2 (.node "" [] none [])
  (s2, doc,
   ⟨filename, fsOk filename,
    if fsOk filename then none
    else some ("Error writing file " ++ filename)⟩)

/-- Lines 190-195 of `html_to_atom`: save the full feed to `atom.xml`, then
the top-20 feed to `atom-recent-20.xml`, both from the same base element
(object 0 of the store). -/
def html_to_atom_save_phase (shell : XTree)
    (sorted : List (Datetime × AtomEntry)) (fsOk : String → Bool) :
    ETStore × (XTree × XTree) × List WriteAttempt :=
  let r1 := save_atom_feed "atom.xml" ⟨[shell]⟩ 0 sorted fsOk
  let r2 := save_atom_feed "atom-recent-20.xml" r1.1 0 (sorted.take 20) fsOk
  (r2.1, (r1.2.1, r2.2.1), [r1.2.2, r2.2.2])

/-! ### Input-source handling (`html_to_atom`, lines 162-179) -/

/-- Strip trailing `/` characters. -/
def rstripSlashes (l : List Char) : List Char :=
  (l.reverse.dropWhile (fun c => c == '/')).reverse

/-- `os.path.dirname` (POSIX): everything up to the last `/`, with trailing
slashes stripped unless the head is all slashes. -/
def posixDirnameL (p : List Char) : List Char :=
  let i :=
    match p.reverse.findIdx? (fun c => c == '/') with
    | some j => p.length - j
    | none => 0
  let head := p.take i
  if head ≠ [] ∧ ¬ (head.all (fun c => c == '/')) then rstripSlashes head
  else head

/-- The base-URL selection of `html_to_atom` (lines 162-179): for a
`file://` input the program assigns `base_url = os.path.dirname(filepath)`
(the trailing comment notwithstanding); for an HTTP(S) input the fetched URL
itself.  File reading and fetching are elided: only the computed base URL is
modelled. -/
def html_to_atom_base_url (url : String) : String :=
  if url.data.take 7 = "file://".data then
    String.mk (posixDirnameL (url.data.drop 7))
  else url

/-! ### Canonical documented-format timestamp strings

`renderTS` produces the canonical string of the documented format
`"<Mon> <Day>, <Year> <Hour>:<Minute> <AM/PM> <TZ-abbrev>"` from its
components (as on the scraped pages: unpadded day and hour, two-digit
minute, four-digit year, single spaces). -/

/-- Display month abbreviations, month 1-12. -/
def monthChars (m : Nat) : List Char :=
  match m with
  | 1 => ['J','a','n'] | 2 => ['F','e','b'] | 3 => ['M','a','r']
  | 4 => ['A','p','r'] | 5 => ['M','a','y'] | 6 => ['J','u','n']
  | 7 => ['J','u','l'] | 8 => ['A','u','g'] | 9 => ['S','e','p']
  | 10 => ['O','c','t'] | 11 => ['N','o','v'] | 12 => ['D','e','c']
  | _ => []

/-- The canonical rendering of a documented-format timestamp. -/
def renderTS (mo d y h mi : Nat) (pm : Bool) (tz : String) : String :=
  String.mk (monthChars mo ++ ' ' :: (natChars d ++ ',' :: ' ' ::
    (natChars y ++ ' ' :: (natChars h ++ ':' :: (padNat 2 mi ++ ' ' ::
      ((if pm then ['P','M'] else ['A','M']) ++ ' ' :: tz.data))))))

/-- `true` when the list is empty or its head fails `p` (used to state that a
maximal munch stops exactly at a boundary). -/
def headNotB (p : Char → Bool) (l : List Char) : Bool :=
  match l with
  | [] => true
  | c :: _ => !p c

/-! ### Concrete example inputs

Small concrete documents used to instantiate the theorems below (witnesses
and counterexamples). -/

/-- A fixed aware-UTC "current time" for concrete runs. -/
def now0 : Datetime := ⟨2000, 1, 1, 0, 0, 0, true⟩

/-- A matched model item with no sub-structure at all. -/
def liEmptyModel : HtmlNode := .elem "li" [("x-test-model", "")] [] .nil

/-- A document with a single bare model item. -/
def soupOneItem : HtmlNode := .elem "html" [] [] (htmlForestOf [liEmptyModel])

/-- A matched model item with a title but no anchor element. -/
def liNoAnchor : HtmlNode :=
  .elem "li" [("x-test-model", "")] []
    (htmlForestOf [.elem "span" [("x-test-search-response-title", "")] []
      (htmlForestOf [.text "M1"])])

/-- A document whose only model item has no anchor. -/
def soupNoAnchor : HtmlNode := .elem "html" [] [] (htmlForestOf [liNoAnchor])

/-- A matched model item whose anchor carries no `href` attribute. -/
def liBareAnchor : HtmlNode :=
  .elem "li" [("x-test-model", "")] [] (htmlForestOf [.elem "a" [] [] .nil])

/-- A document whose only model item has an `href`-less anchor. -/
def soupBadAnchor : HtmlNode := .elem "html" [] [] (htmlForestOf [liBareAnchor])

/-- A matched model item linking to `/library/m`. -/
def liDup : HtmlNode :=
  .elem "li" [("x-test-model", "")] []
    (htmlForestOf [.elem "a" [("href", "/library/m")] [] .nil])

/-- A document with two identical model items (same resolved URL). -/
def soupDup : HtmlNode := .elem "html" [] [] (htmlForestOf [liDup, liDup])

/-- A matched model item with an anchor but no description paragraph and no
counter spans. -/
def liNoDesc : HtmlNode :=
  .elem "li" [("x-test-model", "")] []
    (htmlForestOf [.elem "a" [("href", "/library/nodesc")] [] .nil])

/-- A fully featured model item. -/
def liM1 : HtmlNode :=
  .elem "li" [("x-test-model", "")] []
    (htmlForestOf
      [.elem "a" [("href", "/library/llama3")] []
        (htmlForestOf [.elem "span" [("x-test-search-response-title", "")] []
          (htmlForestOf [.text "Llama 3"])]),
       .elem "p" [] ["max-w-lg"] (htmlForestOf [.text "  A model.  "]),
       .elem "span" [("title", "Mar 13, 2025 12:39 PM UTC")]
         ["flex", "items-center"] .nil,
       .elem "span" [("x-test-size", "")] [] (htmlForestOf [.text "8b "]),
       .elem "span" [("x-test-size", "")] [] (htmlForestOf [.text "70b"]),
       .elem "span" [("x-test-capability", "")] [] (htmlForestOf [.text "tools"]),
       .elem "span" [("x-test-pull-count", "")] [] (htmlForestOf [.text "5.6M"]),
       .elem "span" [("x-test-tag-count", "")] [] (htmlForestOf [.text "93"])])

/-- A second model item with a different link and an older date. -/
def liM2 : HtmlNode :=
  .elem "li" [("x-test-model", "")] []
    (htmlForestOf
      [.elem "a" [("href", "/library/mistral")] []
        (htmlForestOf [.elem "span" [("x-test-search-response-title", "")] []
          (htmlForestOf [.text "Mistral"])]),
       .elem "span" [("title", "Jan 1, 2024 1:00 AM UTC")]
         ["flex", "items-center"] .nil])

/-- A document with the two model items above. -/
def soup2 : HtmlNode := .elem "html" [] [] (htmlForestOf [liM1, liM2])

/-! ## Supporting lemmas -/

theorem takeWhile_append_all {p : Char → Bool} :
    ∀ (A B : List Char), (∀ a ∈ A, p a = true) →
      (A ++ B).takeWhile p = A ++ B.takeWhile p
  | [], B, _ => rfl
  | a :: A, B, h => by
    have ha := h a (by simp)
    simp only [List.cons_append, List.takeWhile_cons, ha]
    exact congrArg (a :: ·) (takeWhile_append_all A B (fun x hx => h x (by simp [hx])))

theorem dropWhile_append_all {p : Char → Bool} :
    ∀ (A B : List Char), (∀ a ∈ A, p a = true) →
      (A ++ B).dropWhile p = B.dropWhile p
  | [], B, _ => rfl
  | a :: A, B, h => by
    have ha := h a (by simp)
    simp only [List.cons_append, List.dropWhile_cons, ha, if_true]
    exact dropWhile_append_all A B (fun x hx => h x (by simp [hx]))

theorem takeWhile_headNot {p : Char → Bool} {l : List Char}
    (h : headNotB p l = true) : l.takeWhile p = [] := by
  cases l with
  | nil => rfl
  | cons c t =>
    simp only [headNotB, Bool.not_eq_true'] at h
    simp [List.takeWhile_cons, h]

theorem dropWhile_headNot {p : Char → Bool} {l : List Char}
    (h : headNotB p l = true) : l.dropWhile p = l := by
  cases l with
  | nil => rfl
  | cons c t =>
    simp only [headNotB, Bool.not_eq_true'] at h
    simp [List.dropWhile_cons, h]

theorem natCharsGo_spec :
    ∀ (fuel n : Nat) (acc : List Char), n ≤ fuel →
      natCharsGo fuel n acc =
        ((Nat.digits 10 n).reverse).map Nat.digitChar ++ acc
  | 0, n, acc, hn => by
    have : n = 0 := by omega
    subst this
    simp [natCharsGo]
  | fuel + 1, n, acc, hn => by
    by_cases h0 : n = 0
    · subst h0
      simp [natCharsGo]
    · have hdiv : n / 10 ≤ fuel := by
        have := Nat.div_lt_self (Nat.pos_of_ne_zero h0) (by norm_num : 1 < 10)
        omega
      rw [natCharsGo, if_neg h0, natCharsGo_spec fuel (n / 10) _ hdiv,
        Nat.digits_def' (by norm_num : 1 < 10) (Nat.pos_of_ne_zero h0)]
      simp

theorem natChars_eq (n : Nat) :
    natChars n = ((Nat.digits 10 n).reverse).map Nat.digitChar := by
  rw [natChars, natCharsGo_spec n n [] (le_refl n), List.append_nil]

theorem digitChar_isDigit {d : Nat} (h : d < 10) :
    isDigitC (Nat.digitChar d) = true := by
  interval_cases d <;> rfl

theorem digitVal_digitChar {d : Nat} (h : d < 10) :
    digitVal (Nat.digitChar d) = d := by
  interval_cases d <;> rfl

theorem natChars_all_digit {n : Nat} : ∀ c ∈ natChars n, isDigitC c = true := by
  intro c hc
  rw [natChars_eq] at hc
  simp only [List.mem_map, List.mem_reverse] at hc
  obtain ⟨d, hd, rfl⟩ := hc
  exact digitChar_isDigit (Nat.digits_lt_base (by norm_num) hd)

theorem isDigitC_not_ws {c : Char} (h : isDigitC c = true) : isWsC c = false := by
  simp only [isDigitC, Bool.and_eq_true, decide_eq_true_eq] at h
  simp only [isWsC, Bool.or_eq_false_iff, beq_eq_false_iff_ne, ne_eq]
  omega

theorem foldr_horner (L : List Nat) :
    L.foldr (fun d a => 10 * a + d) 0 = Nat.ofDigits 10 L := by
  induction L with
  | nil => rfl
  | cons d L ih =>
    simp only [List.foldr_cons, ih, Nat.ofDigits_cons]
    omega

theorem foldl_digitChars (L : List Nat) (acc : Nat) (h : ∀ d ∈ L, d < 10) :
    (L.map Nat.digitChar).foldl (fun a c => 10 * a + digitVal c) acc =
      L.foldl (fun a d => 10 * a + d) acc := by
  induction L generalizing acc with
  | nil => rfl
  | cons d L ih =>
    simp only [List.map_cons, List.foldl_cons]
    rw [digitVal_digitChar (h d (by simp))]
    exact ih _ (fun x hx => h x (by simp [hx]))

theorem valOf_natChars (n : Nat) : valOfDigits (natChars n) = n := by
  rw [natChars_eq]
  unfold valOfDigits
  rw [foldl_digitChars _ _ (fun d hd =>
    Nat.digits_lt_base (by norm_num) (List.mem_reverse.mp hd))]
  rw [List.foldl_reverse]
  exact (foldr_horner (Nat.digits 10 n)).trans (Nat.ofDigits_digits 10 n)

theorem natChars_length (n : Nat) : (natChars n).length = (Nat.digits 10 n).length := by
  rw [natChars_eq]
  simp

theorem natChars_length_le {n k : Nat} (h : n < 10 ^ k) :
    (natChars n).length ≤ k := by
  rw [natChars_length]
  rcases Nat.eq_zero_or_pos n with rfl | hn
  · simp
  · rw [Nat.digits_len 10 n (by norm_num) (Nat.pos_iff_ne_zero.mp hn)]
    have := (Nat.lt_pow_iff_log_lt (by norm_num : 1 < 10)
      (Nat.pos_iff_ne_zero.mp hn)).mp h
    omega

theorem natChars_length_ge {n k : Nat} (h : 10 ^ k ≤ n) :
    k + 1 ≤ (natChars n).length := by
  rw [natChars_length]
  have hn : n ≠ 0 := by
    have : 1 ≤ 10 ^ k := Nat.one_le_pow _ _ (by norm_num)
    omega
  rw [Nat.digits_len 10 n (by norm_num) hn]
  have := (Nat.pow_le_iff_le_log (by norm_num : 1 < 10) hn).mp h
  omega

theorem natChars_ne_nil {n : Nat} (h : n ≠ 0) : natChars n ≠ [] := by
  rw [natChars_eq]
  simp [Nat.digits_ne_nil_iff_ne_zero.mpr h]

theorem valOf_padTwo (mi : Nat) :
    valOfDigits (padNat 2 mi) = mi := by
  unfold padNat valOfDigits
  rw [List.foldl_append]
  have hz : ∀ (k : Nat), (List.replicate k '0').foldl
      (fun a c => 10 * a + digitVal c) 0 = 0 := by
    intro k
    induction k with
    | zero => rfl
    | succ k ih => simpa [List.replicate_succ, digitVal] using ih
  rw [hz]
  exact valOf_natChars mi

theorem padTwo_all_digit (mi : Nat) : ∀ c ∈ padNat 2 mi, isDigitC c = true := by
  intro c hc
  simp only [padNat, List.mem_append, List.mem_replicate] at hc
  rcases hc with ⟨-, rfl⟩ | hc
  · rfl
  · exact natChars_all_digit c hc

theorem padTwo_length {mi : Nat} (h : mi < 100) : (padNat 2 mi).length = 2 := by
  have hle : (natChars mi).length ≤ 2 := natChars_length_le (by omega)
  simp only [padNat, List.length_append, List.length_replicate]
  omega

theorem padTwo_ne_nil (mi : Nat) : padNat 2 mi ≠ [] := by
  intro h
  have hlen := congrArg List.length h
  rw [padNat, List.length_append, List.length_replicate, List.length_nil] at hlen
  omega

theorem munchNat_spec {mn mx lo hi : Nat} {ds rest : List Char}
    (hall : ∀ c ∈ ds, isDigitC c = true) (hrest : headNotB isDigitC rest = true)
    (h1 : mn ≤ ds.length) (h2 : ds.length ≤ mx)
    (h3 : lo ≤ valOfDigits ds) (h4 : valOfDigits ds ≤ hi) :
    munchNat mn mx lo hi (ds ++ rest) = some (valOfDigits ds, rest) := by
  unfold munchNat
  rw [takeWhile_append_all ds rest hall, takeWhile_headNot hrest,
    dropWhile_append_all ds rest hall, dropWhile_headNot hrest,
    List.append_nil]
  simp [h1, h2, h3, h4]

theorem munchWs1_spec {rest : List Char} (h : headNotB isWsC rest = true) :
    munchWs1 (' ' :: rest) = some rest := by
  have hm : munchWs1 (' ' :: rest) =
      if isWsC ' ' = true then some (rest.dropWhile isWsC) else none := rfl
  rw [hm, if_pos (show isWsC ' ' = true from rfl), dropWhile_headNot h]

theorem headNotB_cons (p : Char → Bool) (c : Char) (l : List Char) :
    headNotB p (c :: l) = !p c := rfl

theorem headNotB_natChars {n : Nat} (h : n ≠ 0) (rest : List Char) :
    headNotB isWsC (natChars n ++ rest) = true := by
  cases hnc : natChars n with
  | nil => exact absurd hnc (natChars_ne_nil h)
  | cons c t =>
    have hc : isDigitC c = true := @natChars_all_digit n c (by simp [hnc])
    simp [List.cons_append, headNotB_cons, isDigitC_not_ws hc]

theorem headNotB_padTwo (mi : Nat) (rest : List Char) :
    headNotB isWsC (padNat 2 mi ++ rest) = true := by
  cases hnc : padNat 2 mi with
  | nil => exact absurd hnc (padTwo_ne_nil mi)
  | cons c t =>
    have hc : isDigitC c = true := padTwo_all_digit mi c (by simp [hnc])
    simp [List.cons_append, headNotB_cons, isDigitC_not_ws hc]

theorem parseMonth_spec {mo : Nat} (rest : List Char)
    (h1 : 1 ≤ mo) (h2 : mo ≤ 12) :
    parseMonth (monthChars mo ++ rest) = some (mo, rest) := by
  interval_cases mo <;> rfl

theorem monthChars_ne_nil {mo : Nat} (h1 : 1 ≤ mo) (h2 : mo ≤ 12) :
    monthChars mo ≠ [] := by
  interval_cases mo <;> decide

theorem daysInMonth_le_31 (y m : Nat) : daysInMonth y m ≤ 31 := by
  unfold daysInMonth
  split
  · split <;> omega
  · split <;> omega

theorem expectChar_self (c : Char) (l : List Char) :
    expectChar c (c :: l) = some l := by
  unfold expectChar
  simp

theorem parseAmPm_true (rest : List Char) :
    parseAmPm (['P','M'] ++ rest) = some (true, rest) := rfl

theorem parseAmPm_false (rest : List Char) :
    parseAmPm (['A','M'] ++ rest) = some (false, rest) := rfl

theorem strptimeFields_render {mo d y h mi : Nat} {pm : Bool} {tz : String}
    {ltz : List String}
    (hmo1 : 1 ≤ mo) (hmo2 : mo ≤ 12)
    (hd1 : 1 ≤ d) (hd2 : d ≤ daysInMonth y mo)
    (hy1 : 1000 ≤ y) (hy2 : y ≤ 9999)
    (hh1 : 1 ≤ h) (hh2 : h ≤ 12)
    (hmi : mi ≤ 59)
    (htz : tzAccepted ltz tz.data = true)
    (htzw : headNotB isWsC tz.data = true) :
    strptimeFields (renderTS mo d y h mi pm tz).data ltz =
      some (y, mo, d, to24 h pm, mi) := by
  have hd31 : d ≤ 31 := le_trans hd2 (daysInMonth_le_31 y mo)
  have hdne : d ≠ 0 := by omega
  have hyne : y ≠ 0 := by omega
  have hhne : h ≠ 0 := by omega
  have hdlen1 : 1 ≤ (natChars d).length :=
    List.length_pos.mpr (natChars_ne_nil hdne)
  have hdlen2 : (natChars d).length ≤ 2 := natChars_length_le (show d < 10 ^ 2 by omega)
  have hylen1 : 4 ≤ (natChars y).length := natChars_length_ge (k := 3) (by omega)
  have hylen2 : (natChars y).length ≤ 4 := natChars_length_le (by omega)
  have hhlen1 : 1 ≤ (natChars h).length :=
    List.length_pos.mpr (natChars_ne_nil hhne)
  have hhlen2 : (natChars h).length ≤ 2 := natChars_length_le (by omega)
  have hmilen : (padNat 2 mi).length = 2 := padTwo_length (by omega)
  show strptimeFields (monthChars mo ++ ' ' :: (natChars d ++ ',' :: ' ' ::
    (natChars y ++ ' ' :: (natChars h ++ ':' :: (padNat 2 mi ++ ' ' ::
      ((if pm then ['P','M'] else ['A','M']) ++ ' ' :: tz.data)))))) ltz = _
  rw [strptimeFields, parseMonth_spec _ hmo1 hmo2]
  simp only [Option.bind_eq_bind, Option.some_bind]
  rw [munchWs1_spec (headNotB_natChars hdne _)]
  simp only [Option.bind_eq_bind, Option.some_bind]
  rw [munchNat_spec natChars_all_digit (by rfl) hdlen1 hdlen2
    (by rw [valOf_natChars]; exact hd1) (by rw [valOf_natChars]; exact hd31)]
  simp only [Option.bind_eq_bind, Option.some_bind, valOf_natChars]
  rw [expectChar_self]
  simp only [Option.bind_eq_bind, Option.some_bind]
  rw [munchWs1_spec (headNotB_natChars hyne _)]
  simp only [Option.bind_eq_bind, Option.some_bind]
  rw [munchNat_spec natChars_all_digit (by rfl) hylen1 hylen2
    (by omega) (by rw [valOf_natChars]; exact hy2)]
  simp only [Option.bind_eq_bind, Option.some_bind, valOf_natChars]
  rw [munchWs1_spec (headNotB_natChars hhne _)]
  simp only [Option.bind_eq_bind, Option.some_bind]
  rw [munchNat_spec natChars_all_digit (by rfl) hhlen1 hhlen2
    (by rw [valOf_natChars]; exact hh1) (by rw [valOf_natChars]; exact hh2)]
  simp only [Option.bind_eq_bind, Option.some_bind, valOf_natChars]
  rw [expectChar_self]
  simp only [Option.bind_eq_bind, Option.some_bind]
  rw [munchNat_spec (padTwo_all_digit mi) (by rfl) (by omega) (by omega)
    (by omega) (by rw [valOf_padTwo]; exact hmi)]
  simp only [Option.bind_eq_bind, Option.some_bind, valOf_padTwo]
  cases pm with
  | true =>
    rw [if_pos rfl]
    rw [munchWs1_spec (by rfl)]
    simp only [Option.bind_eq_bind, Option.some_bind]
    rw [parseAmPm_true]
    simp only [Option.bind_eq_bind, Option.some_bind]
    rw [munchWs1_spec htzw]
    simp only [Option.bind_eq_bind, Option.some_bind]
    rw [if_pos htz, if_pos (by
      simp only [Bool.and_eq_true, decide_eq_true_eq]
      exact ⟨⟨by omega, hd1⟩, hd2⟩)]
  | false =>
    rw [if_neg (by simp)]
    rw [munchWs1_spec (by rfl)]
    simp only [Option.bind_eq_bind, Option.some_bind]
    rw [parseAmPm_false]
    simp only [Option.bind_eq_bind, Option.some_bind]
    rw [munchWs1_spec htzw]
    simp only [Option.bind_eq_bind, Option.some_bind]
    rw [if_pos htz, if_pos (by
      simp only [Bool.and_eq_true, decide_eq_true_eq]
      exact ⟨⟨by omega, hd1⟩, hd2⟩)]

theorem listLe_total : ∀ (a b : List Nat), listLe a b = true ∨ listLe b a = true
  | [], [] => Or.inl rfl
  | [], _ :: _ => Or.inl rfl
  | _ :: _, [] => Or.inr rfl
  | a :: as, b :: bs => by
    rcases Nat.lt_trichotomy a b with hab | hab | hab
    · left
      simp [listLe, hab]
    · subst hab
      rcases listLe_total as bs with ih | ih
      · left
        simp [listLe, ih]
      · right
        simp [listLe, ih]
    · right
      simp [listLe, hab]

theorem listLe_trans :
    ∀ {a b c : List Nat}, listLe a b = true → listLe b c = true →
      listLe a c = true
  | [], _, _, _, _ => rfl
  | _ :: _, [], _, hab, _ => by simp [listLe] at hab
  | _ :: _, _ :: _, [], _, hbc => by simp [listLe] at hbc
  | a :: as, b :: bs, c :: cs, hab, hbc => by
    simp only [listLe, Bool.or_eq_true, Bool.and_eq_true, decide_eq_true_eq,
      beq_iff_eq] at hab hbc ⊢
    rcases hab with hab | ⟨rfl, hab⟩
    · rcases hbc with hbc | ⟨rfl, _⟩
      · exact Or.inl (by omega)
      · exact Or.inl hab
    · rcases hbc with hbc | ⟨rfl, hbc⟩
      · exact Or.inl hbc
      · exact Or.inr ⟨rfl, listLe_trans hab hbc⟩

theorem listLe_iff :
    ∀ (a b : List Nat), listLe a b = true ↔ (listLt a b = true ∨ a = b)
  | [], [] => by simp [listLe, listLt]
  | [], _ :: _ => by simp [listLe, listLt]
  | _ :: _, [] => by simp [listLe, listLt]
  | a :: as, b :: bs => by
    simp only [listLe, listLt, Bool.or_eq_true, Bool.and_eq_true,
      decide_eq_true_eq, beq_iff_eq, List.cons.injEq]
    rcases Nat.lt_trichotomy a b with hab | hab | hab
    · simp [hab]
    · subst hab
      rw [listLe_iff as bs]
      constructor
      · rintro (h | ⟨-, (h | rfl)⟩)
        · omega
        · exact Or.inl (Or.inr ⟨rfl, h⟩)
        · exact Or.inr ⟨rfl, rfl⟩
      · rintro ((h | ⟨-, h⟩) | ⟨-, rfl⟩)
        · omega
        · exact Or.inr ⟨rfl, Or.inl h⟩
        · exact Or.inr ⟨rfl, Or.inr rfl⟩
    · constructor
      · rintro (h | ⟨rfl, _⟩) <;> omega
      · rintro ((h | ⟨rfl, _⟩) | ⟨rfl, rfl⟩) <;> omega

instance : IsTotal (Datetime × AtomEntry) rDesc :=
  ⟨fun p q => by
    unfold rDesc
    exact (listLe_total (dtKey p.1) (dtKey q.1)).symm⟩

instance : IsTrans (Datetime × AtomEntry) rDesc :=
  ⟨fun _ _ _ hab hbc => by
    unfold rDesc at *
    exact listLe_trans hbc hab⟩

theorem listLt_irrefl : ∀ (a : List Nat), listLt a a = false
  | [] => rfl
  | x :: xs => by
    simp only [listLt, Bool.or_eq_false_iff, Bool.and_eq_false_iff]
    exact ⟨by simp, Or.inr (listLt_irrefl xs)⟩

theorem listLe_antisymm :
    ∀ {a b : List Nat}, listLe a b = true → listLe b a = true → a = b
  | [], [], _, _ => rfl
  | [], _ :: _, _, hba => by simp [listLe] at hba
  | _ :: _, [], hab, _ => by simp [listLe] at hab
  | a :: as, b :: bs, hab, hba => by
    simp only [listLe, Bool.or_eq_true, Bool.and_eq_true, decide_eq_true_eq,
      beq_iff_eq] at hab hba
    rcases hab with hab | ⟨rfl, hab⟩
    · rcases hba with hba | ⟨rfl, -⟩ <;> omega
    · rcases hba with hba | ⟨-, hba⟩
      · omega
      · rw [listLe_antisymm hab hba]

theorem listLt_iff_le_ne (a b : List Nat) :
    listLt a b = true ↔ (listLe a b = true ∧ a ≠ b) := by
  constructor
  · intro hlt
    refine ⟨(listLe_iff a b).mpr (Or.inl hlt), ?_⟩
    rintro rfl
    rw [listLt_irrefl a] at hlt
    exact Bool.false_ne_true hlt
  · rintro ⟨hle, hne⟩
    rcases (listLe_iff a b).mp hle with hlt | rfl
    · exact hlt
    · exact absurd rfl hne

theorem listLt_trans {a b c : List Nat} (hab : listLt a b = true)
    (hbc : listLt b c = true) : listLt a c = true := by
  have hab' := (listLt_iff_le_ne a b).mp hab
  have hbc' := (listLt_iff_le_ne b c).mp hbc
  refine (listLt_iff_le_ne a c).mpr ⟨listLe_trans hab'.1 hbc'.1, ?_⟩
  rintro rfl
  exact hbc'.2 (listLe_antisymm hbc'.1 hab'.1)

instance : IsTotal (Nat × (Datetime × AtomEntry)) rIdx :=
  ⟨fun x y => by
    unfold rIdx
    rcases listLe_total (dtKey x.2.1) (dtKey y.2.1) with hle | hle
    · rcases (listLe_iff _ _).mp hle with hlt | heq
      · exact Or.inr (Or.inl hlt)
      · rcases Nat.le_total x.1 y.1 with hi | hi
        · exact Or.inl (Or.inr ⟨heq, hi⟩)
        · exact Or.inr (Or.inr ⟨heq.symm, hi⟩)
    · rcases (listLe_iff _ _).mp hle with hlt | heq
      · exact Or.inl (Or.inl hlt)
      · rcases Nat.le_total x.1 y.1 with hi | hi
        · exact Or.inl (Or.inr ⟨heq.symm, hi⟩)
        · exact Or.inr (Or.inr ⟨heq, hi⟩)⟩

instance : IsTrans (Nat × (Datetime × AtomEntry)) rIdx :=
  ⟨fun x y z hxy hyz => by
    unfold rIdx at *
    rcases hxy with hxy | ⟨hxy, hixy⟩
    · rcases hyz with hyz | ⟨hyz, -⟩
      · exact Or.inl (listLt_trans hyz hxy)
      · exact Or.inl (hyz ▸ hxy)
    · rcases hyz with hyz | ⟨hyz, hiyz⟩
      · exact Or.inl (by rw [hxy]; exact hyz)
      · exact Or.inr ⟨hxy.trans hyz, le_trans hixy hiyz⟩⟩

theorem rIdx_iff_rDesc {x y : Nat × (Datetime × AtomEntry)} (h : x.1 ≤ y.1) :
    rIdx x y ↔ rDesc x.2 y.2 := by
  unfold rIdx rDesc
  rw [listLe_iff]
  constructor
  · rintro (hlt | ⟨heq, -⟩)
    · exact Or.inl hlt
    · exact Or.inr (by rw [heq])
  · rintro (hlt | heq)
    · exact Or.inl hlt
    · exact Or.inr ⟨heq.symm, h⟩

theorem map_snd_orderedInsert
    (x : Nat × (Datetime × AtomEntry)) :
    ∀ (L : List (Nat × (Datetime × AtomEntry))), (∀ z ∈ L, x.1 ≤ z.1) →
      (L.orderedInsert rIdx x).map Prod.snd =
        (L.map Prod.snd).orderedInsert rDesc x.2
  | [], _ => rfl
  | z :: T, h => by
    have hz : x.1 ≤ z.1 := h z (by simp)
    by_cases hr : rDesc x.2 z.2
    · rw [List.orderedInsert, if_pos ((rIdx_iff_rDesc hz).mpr hr),
        List.map_cons, List.map_cons, List.orderedInsert, if_pos hr]
    · rw [List.orderedInsert, if_neg (fun hc => hr ((rIdx_iff_rDesc hz).mp hc)),
        List.map_cons, List.map_cons, List.orderedInsert, if_neg hr]
      exact congrArg (z.2 :: ·)
        (map_snd_orderedInsert x T (fun w hw => h w (by simp [hw])))

theorem map_snd_insertionSort :
    ∀ (L : List (Nat × (Datetime × AtomEntry))),
      L.Pairwise (fun x z => x.1 ≤ z.1) →
      (L.insertionSort rIdx).map Prod.snd =
        (L.map Prod.snd).insertionSort rDesc
  | [], _ => rfl
  | x :: T, h => by
    rcases List.pairwise_cons.mp h with ⟨hx, hT⟩
    rw [List.insertionSort, List.map_cons, List.insertionSort,
      ← map_snd_insertionSort T hT]
    exact map_snd_orderedInsert x _ (fun z hz =>
      hx z ((List.perm_insertionSort rIdx T).mem_iff.mp hz))

theorem le_fst_of_mem_enumFrom {α : Type} :
    ∀ (l : List α) (n : Nat) (z : Nat × α), z ∈ l.enumFrom n → n ≤ z.1
  | [], _, _, hz => by simp [List.enumFrom] at hz
  | x :: xs, n, z, hz => by
    rcases (by simpa [List.enumFrom] using hz : z = (n, x) ∨
        z ∈ xs.enumFrom (n + 1)) with rfl | hz'
    · exact le_refl n
    · exact le_trans (by omega) (le_fst_of_mem_enumFrom xs (n + 1) z hz')

theorem pairwise_le_enumFrom {α : Type} :
    ∀ (l : List α) (n : Nat),
      (l.enumFrom n).Pairwise (fun x z => x.1 ≤ z.1)
  | [], _ => by simp [List.enumFrom]
  | x :: xs, n => by
    rw [List.enumFrom]
    exact List.pairwise_cons.mpr
      ⟨fun z hz => le_trans (by omega) (le_fst_of_mem_enumFrom xs (n + 1) z hz),
       pairwise_le_enumFrom xs (n + 1)⟩

theorem enumFrom_map_snd {α : Type} :
    ∀ (l : List α) (n : Nat), (l.enumFrom n).map Prod.snd = l
  | [], _ => rfl
  | x :: xs, n => by
    rw [List.enumFrom, List.map_cons, enumFrom_map_snd xs (n + 1)]

/-- Stability of the program's sort: it equals the sort of the
position-annotated list by the strict order "key descending, ties by original
position", with the annotations dropped. -/
theorem pySortDesc_stable (l : List (Datetime × AtomEntry)) :
    pySortDesc l = ((l.enum).insertionSort rIdx).map Prod.snd := by
  have hp : (l.enum).Pairwise (fun x z => x.1 ≤ z.1) := pairwise_le_enumFrom l 0
  rw [map_snd_insertionSort _ hp]
  have he : (l.enum).map Prod.snd = l := enumFrom_map_snd l 0
  rw [he]
  rfl

theorem extractItem_eq_total {base : String} {now : Datetime}
    {ltz : List String} {m : HtmlNode} (h : anchorHrefOk m = true) :
    extractItem base now ltz m = .ok (extractItemT base now ltz m) := by
  unfold extractItem extractItemT itemHref
  unfold anchorHrefOk at h
  cases hf : findFirst anchorCond m with
  | none => rfl
  | some a =>
    rw [hf] at h
    dsimp only at h
    cases hh : a.attr "href" with
    | none =>
      rw [hh] at h
      simp at h
    | some v =>
      dsimp only
      rw [hh]
      rfl

theorem mapListE_ok {α β : Type} {f : α → Except String β} {g : α → β} :
    ∀ {L : List α}, (∀ m ∈ L, f m = .ok (g m)) →
      mapListE f L = .ok (L.map g)
  | [], _ => rfl
  | x :: xs, h => by
    rw [mapListE, h x (by simp), mapListE_ok (fun m hm => h m (by simp [hm]))]
    rfl

theorem create_base_ok {soup : HtmlNode} {base : String} {now : Datetime}
    {ltz : List String}
    (h : ∀ m ∈ findAll modelCond soup, anchorHrefOk m = true) :
    create_base_feed_and_entries soup base now ltz =
      .ok (buildBaseShell base now,
        (findAll modelCond soup).map (extractItemT base now ltz)) := by
  unfold create_base_feed_and_entries
  rw [mapListE_ok (fun m hm => extractItem_eq_total (h m hm))]
  rfl

/-- `urljoin(base, "")` returns the base unchanged (the early return
`if not url: return base`). -/
theorem urljoin_empty (b : String) : urljoin b "" = b := by
  cases b with
  | mk data =>
    show String.mk (urljoinL data []) = String.mk data
    unfold urljoinL
    by_cases h : data = []
    · rw [if_pos h, h]
    · rw [if_neg h, if_pos rfl]


theorem getD_append_last :
    ∀ (A : List XTree) (t d : XTree), (A ++ [t]).getD A.length d = t
  | [], _, _ => rfl
  | _ :: A, t, d => getD_append_last A t d

theorem set_append_last :
    ∀ (A : List XTree) (t v : XTree), (A ++ [t]).set A.length v = A ++ [v]
  | [], _, _ => rfl
  | a :: A, t, v => by
    simp only [List.cons_append, List.length_cons, List.set, List.append_eq]
    rw [set_append_last A t v]

theorem appendChild_appendList (t : XTree) (e : XTree) (l : List XTree) :
    (t.appendChild e).appendList l = t.appendList (e :: l) := by
  cases t with
  | node tg a x cs => simp [XTree.appendChild, XTree.appendList]

theorem appendList_nil (t : XTree) : t.appendList [] = t := by
  cases t with
  | node tg a x cs => simp [XTree.appendList]

theorem foldl_append_last :
    ∀ (entries : List (Datetime × AtomEntry)) (A : List XTree) (t : XTree),
      (entries.foldl
        (fun st de => ETStore.appendAt st A.length (entryToTree de.2))
        ⟨A ++ [t]⟩).objs =
        A ++ [t.appendList (entries.map (fun de => entryToTree de.2))]
  | [], A, t => by
    simp only [List.foldl_nil, List.map_nil, appendList_nil]
  | de :: rest, A, t => by
    rw [List.foldl_cons,
      show ETStore.appendAt ⟨A ++ [t]⟩ A.length (entryToTree de.2) =
        (⟨A ++ [t.appendChild (entryToTree de.2)]⟩ : ETStore) from by
          unfold ETStore.appendAt
          rw [getD_append_last, set_append_last],
      foldl_append_last rest A (t.appendChild (entryToTree de.2)),
      appendChild_appendList]
    rfl

theorem save_atom_feed_objs (fn : String) (OBJ : List XTree) (b : Nat)
    (entries : List (Datetime × AtomEntry)) (fs : String → Bool) :
    ((save_atom_feed fn ⟨OBJ⟩ b entries fs).1).objs =
      OBJ ++ [(OBJ.getD b (.node "" [] none [])).appendList
        (entries.map (fun de => entryToTree de.2))] := by
  unfold save_atom_feed ETStore.deepcopy
  exact foldl_append_last entries OBJ _

theorem save_atom_feed_doc (fn : String) (OBJ : List XTree) (b : Nat)
    (entries : List (Datetime × AtomEntry)) (fs : String → Bool) :
    (save_atom_feed fn ⟨OBJ⟩ b entries fs).2.1 =
      (OBJ.getD b (.node "" [] none [])).appendList
        (entries.map (fun de => entryToTree de.2)) := by
  unfold save_atom_feed ETStore.deepcopy
  dsimp only
  rw [foldl_append_last entries OBJ _, getD_append_last]

theorem save_atom_feed_write (fn : String) (s : ETStore) (b : Nat)
    (entries : List (Datetime × AtomEntry)) (fs : String → Bool) :
    (save_atom_feed fn s b entries fs).2.2 =
      ⟨fn, fs fn, if fs fn then none else some ("Error writing file " ++ fn)⟩ :=
  rfl

theorem etstore_eq {s : ETStore} {o : List XTree} (h : s.objs = o) : s = ⟨o⟩ := by
  cases s
  cases h
  rfl

theorem save_phase_spec (shell : XTree)
    (sorted : List (Datetime × AtomEntry)) (fs : String → Bool) :
    (html_to_atom_save_phase shell sorted fs).1.objs.get? 0 = some shell ∧
    (html_to_atom_save_phase shell sorted fs).2.1.1 =
      shell.appendList (sorted.map (fun de => entryToTree de.2)) ∧
    (html_to_atom_save_phase shell sorted fs).2.1.2 =
      shell.appendList ((sorted.take 20).map (fun de => entryToTree de.2)) := by
  have h1 : (save_atom_feed "atom.xml" ⟨[shell]⟩ 0 sorted fs).1 =
      ⟨[shell, shell.appendList (sorted.map (fun de => entryToTree de.2))]⟩ := by
    apply etstore_eq
    rw [save_atom_feed_objs]
    rfl
  unfold html_to_atom_save_phase
  dsimp only
  rw [h1]
  refine ⟨?_, ?_, ?_⟩
  · rw [save_atom_feed_objs]
    rfl
  · rw [save_atom_feed_doc]
    rfl
  · rw [save_atom_feed_doc]
    rfl

theorem save_phase_writes (shell : XTree)
    (sorted : List (Datetime × AtomEntry)) (fs : String → Bool) :
    (html_to_atom_save_phase shell sorted fs).2.2 =
      [⟨"atom.xml", fs "atom.xml",
        if fs "atom.xml" then none else some "Error writing file atom.xml"⟩,
       ⟨"atom-recent-20.xml", fs "atom-recent-20.xml",
        if fs "atom-recent-20.xml" then none
        else some "Error writing file atom-recent-20.xml"⟩] := rfl

theorem string_empty_append (s : String) : "" ++ s = s := by
  cases s
  rfl

/-! ## Claim theorems -/

/-- Claim C1 (amended): for every entry list, the program's sort
(`entries_data.sort(key=..., reverse=True)`) is stable: its output is the
projection of a permutation of the position-annotated input that is sorted
under the total order `rIdx` "key descending, ties by ascending original
position" (which pins the output down uniquely, since `rIdx` orders the
annotated elements strictly).  The output is monotonically non-increasing by
`updated_at`, is a permutation of the input, and the recent output
(`entries_data[:20]`) has exactly `min(20, N)` entries and is a prefix of
the full sorted output (the original claim's "strict prefix" fails when
`N ≤ 20`, where the two outputs coincide). -/
theorem sort_select_correct (l : List (Datetime × AtomEntry)) :
    List.Sorted rDesc (pySortDesc l) ∧
    pySortDesc l = ((l.enum).insertionSort rIdx).map Prod.snd ∧
    List.Sorted rIdx ((l.enum).insertionSort rIdx) ∧
    List.Perm ((l.enum).insertionSort rIdx) l.enum ∧
    List.Perm (pySortDesc l) l ∧
    ((pySortDesc l).take 20).length = min 20 l.length ∧
    (pySortDesc l).take 20 <+: pySortDesc l :=
  ⟨List.sorted_insertionSort rDesc l, pySortDesc_stable l,
   List.sorted_insertionSort rIdx l.enum,
   List.perm_insertionSort rIdx l.enum,
   List.perm_insertionSort rDesc l,
   by rw [List.length_take, pySortDesc, (List.perm_insertionSort rDesc l).length_eq],
   List.take_prefix 20 _⟩

/-- Claim C1 counterexample: on a document with one extracted entry, the
recent output equals the full output (here of length 1 ≤ 20), so the recent
output is not a strict prefix of the full output. -/
theorem sort_select_strict_counterexample :
    ((pipelineEntries soupOneItem "https://ollama.com/search" now0
      ["utc"]).toOption.map
      (fun pr => decide (pr.2 = pr.1 ∧ pr.1.length = 1))) = some true := by
  decide

/-- Claim C3 (confirmed): `parse_timestamp` is total: for every absent,
empty, or unparseable input it returns the current instant in UTC
(timezone-aware), and the warning is printed exactly on the parse-failure
path (a present, non-empty, unparseable string). -/
theorem parse_timestamp_total_fallback (t : Option String) (now : Datetime)
    (ltz : List String) (hnow : now.tzUtc = true)
    (hfail : ∀ s, t = some s → s ≠ "" → strptimeTS s ltz = none) :
    (parse_timestamp t now ltz).1 = now ∧
    ((parse_timestamp t now ltz).1).tzUtc = true ∧
    ((parse_timestamp t now ltz).2 = true ↔ ∃ s, t = some s ∧ s ≠ "") := by
  cases t with
  | none =>
    refine ⟨rfl, hnow, ?_⟩
    simp [parse_timestamp]
  | some s =>
    by_cases hs : s = ""
    · subst hs
      refine ⟨?_, ?_, ?_⟩ <;> simp [parse_timestamp, hnow]
    · have hp := hfail s rfl hs
      have he : parse_timestamp (some s) now ltz =
          if s = "" then (now, false)
          else
            match strptimeTS s ltz with
            | some dt => ({ dt with tzUtc := true }, false)
            | none => (now, true) := rfl
      rw [he, if_neg hs, hp]
      exact ⟨rfl, hnow, by simp [hs]⟩

/-- Claim C3 witness at a concrete unparseable input. -/
theorem parse_timestamp_total_fallback_witness :
    (parse_timestamp (some "not a timestamp") now0 []).1 = now0 ∧
    ((parse_timestamp (some "not a timestamp") now0 []).1).tzUtc = true ∧
    ((parse_timestamp (some "not a timestamp") now0 []).2 = true ↔
      ∃ s, (some "not a timestamp" : Option String) = some s ∧ s ≠ "") :=
  parse_timestamp_total_fallback (some "not a timestamp") now0 []
    (by decide)
    (by
      intro s hs hne
      cases hs
      decide)

/-- Claim C4 (amended): for every canonical documented-format timestamp
string, the parse succeeds exactly when the trailing abbreviation is one
`strptime`'s `%Z` accepts (`UTC`, `GMT`, or a host `time.tzname` entry,
case-insensitively) — and then the result's wall-clock fields match the
input exactly and the zone is UTC, whichever accepted abbreviation appears.
The original claim's "regardless of which trailing timezone abbreviation
appears (the abbreviation is not validated)" fails: see the
counterexample. -/
theorem parse_timestamp_documented_format
    (mo d y h mi : Nat) (pm : Bool) (tz : String) (now : Datetime)
    (ltz : List String)
    (hmo : 1 ≤ mo ∧ mo ≤ 12) (hd : 1 ≤ d ∧ d ≤ daysInMonth y mo)
    (hy : 1000 ≤ y ∧ y ≤ 9999) (hh : 1 ≤ h ∧ h ≤ 12) (hmi : mi ≤ 59)
    (htz : tzAccepted ltz tz.data = true)
    (htzw : headNotB isWsC tz.data = true) :
    parse_timestamp (some (renderTS mo d y h mi pm tz)) now ltz =
      (⟨y, mo, d, to24 h pm, mi, 0, true⟩, false) := by
  have hps : strptimeTS (renderTS mo d y h mi pm tz) ltz =
      some ⟨y, mo, d, to24 h pm, mi, 0, false⟩ := by
    unfold strptimeTS
    rw [strptimeFields_render hmo.1 hmo.2 hd.1 hd.2 hy.1 hy.2 hh.1 hh.2 hmi
      htz htzw]
    rfl
  have hne : renderTS mo d y h mi pm tz ≠ "" := by
    intro hc
    have hdata : (renderTS mo d y h mi pm tz).data = [] := by rw [hc]
    have hlist : monthChars mo ++ ' ' :: (natChars d ++ ',' :: ' ' ::
        (natChars y ++ ' ' :: (natChars h ++ ':' :: (padNat 2 mi ++ ' ' ::
          ((if pm then ['P','M'] else ['A','M']) ++ ' ' :: tz.data))))) =
        ([] : List Char) := hdata
    exact List.append_ne_nil_of_right_ne_nil _ (List.cons_ne_nil _ _) hlist
  have he : parse_timestamp (some (renderTS mo d y h mi pm tz)) now ltz =
      if renderTS mo d y h mi pm tz = "" then (now, false)
      else
        match strptimeTS (renderTS mo d y h mi pm tz) ltz with
        | some dt => ({ dt with tzUtc := true }, false)
        | none => (now, true) := rfl
  rw [he, if_neg hne, hps]

/-- Claim C4 witness: the example string of the spec. -/
theorem parse_timestamp_documented_format_witness :
    renderTS 3 13 2025 12 39 true "UTC" = "Mar 13, 2025 12:39 PM UTC" ∧
    parse_timestamp (some (renderTS 3 13 2025 12 39 true "UTC")) now0 [] =
      (⟨2025, 3, 13, 12, 39, 0, true⟩, false) :=
  ⟨by decide,
   parse_timestamp_documented_format 3 13 2025 12 39 true "UTC" now0 []
     (by decide) (by decide) (by decide) (by decide) (by decide) (by decide)
     (by decide)⟩

/-- Claim C4 counterexample: the same wall-clock instant with the trailing
abbreviation `EST` (on a host whose `time.tzname` is UTC, as for this
repository's runs): `strptime`'s `%Z` rejects it, so the parse falls back
to "now" with a warning instead of returning the wall-clock fields — the
abbreviation is validated. -/
theorem parse_timestamp_tz_counterexample :
    renderTS 3 13 2025 12 39 true "EST" = "Mar 13, 2025 12:39 PM EST" ∧
    parse_timestamp (some "Mar 13, 2025 12:39 PM EST") now0 ["UTC"] =
      (now0, true) ∧
    now0 ≠ ⟨2025, 3, 13, 12, 39, 0, true⟩ := by
  refine ⟨by decide, by decide, by decide⟩

/-- Claim C2 (amended): provided every matched item's first anchor (if any)
carries an `href` attribute — `model.find("a")["href"]` raises `KeyError`
otherwise, aborting the whole extraction; see the counterexample — the
extractor produces exactly `N` records, one per matched item in document
order, none dropped; each record's title defaults to `"Unknown Model"` when
the title node is absent (and is the node's text otherwise), and its
categories are the sizes then the capabilities, in source order. -/
theorem extractor_exactly_n (soup : HtmlNode) (base : String) (now : Datetime)
    (ltz : List String)
    (h : ∀ m ∈ findAll modelCond soup, anchorHrefOk m = true) :
    create_base_feed_and_entries soup base now ltz =
      .ok (buildBaseShell base now,
        (findAll modelCond soup).map (extractItemT base now ltz)) ∧
    ((findAll modelCond soup).map (extractItemT base now ltz)).length =
      (findAll modelCond soup).length ∧
    ∀ m ∈ findAll modelCond soup,
      ((extractItemT base now ltz m).2.categories =
        (findAll sizeCond m ++ findAll capCond m).map (fun n => pyStrip n.texts)) ∧
      (findFirst titleCond m = none →
        (extractItemT base now ltz m).2.title = "Unknown Model") ∧
      (∀ t, findFirst titleCond m = some t →
        (extractItemT base now ltz m).2.title = t.texts) := by
  refine ⟨create_base_ok h, List.length_map _ _, fun m _ => ⟨?_, ?_, ?_⟩⟩
  · unfold extractItemT extractItemWith
    dsimp only
    exact (List.map_append _ _ _).symm
  · intro ht
    unfold extractItemT extractItemWith
    rw [ht]
  · intro t ht
    unfold extractItemT extractItemWith
    rw [ht]

/-- Claim C2 witness at a concrete two-item document. -/
theorem extractor_exactly_n_witness :
    create_base_feed_and_entries soup2 "https://ollama.com/search" now0 ["utc"] =
      .ok (buildBaseShell "https://ollama.com/search" now0,
        (findAll modelCond soup2).map
          (extractItemT "https://ollama.com/search" now0 ["utc"])) ∧
    ((findAll modelCond soup2).map
      (extractItemT "https://ollama.com/search" now0 ["utc"])).length =
      (findAll modelCond soup2).length ∧
    ∀ m ∈ findAll modelCond soup2,
      ((extractItemT "https://ollama.com/search" now0 ["utc"] m).2.categories =
        (findAll sizeCond m ++ findAll capCond m).map (fun n => pyStrip n.texts)) ∧
      (findFirst titleCond m = none →
        (extractItemT "https://ollama.com/search" now0 ["utc"] m).2.title =
          "Unknown Model") ∧
      (∀ t, findFirst titleCond m = some t →
        (extractItemT "https://ollama.com/search" now0 ["utc"] m).2.title =
          t.texts) :=
  extractor_exactly_n soup2 "https://ollama.com/search" now0 ["utc"] (by decide)

/-- Claim C2 counterexample: a document with one matched item whose anchor
has no `href`: `Tag.__getitem__` raises `KeyError`, the extraction aborts
and produces no records at all (rather than one record with a default). -/
theorem extractor_exactly_n_counterexample :
    ((create_base_feed_and_entries soupBadAnchor "https://ollama.com/search"
      now0 ["utc"]).toOption.map (fun r => r.2.length)) = none ∧
    (findAll modelCond soupBadAnchor).length = 1 := by
  refine ⟨by decide, by decide⟩

/-- Claim C5 (code_bug evidence): for a `file://` input the program assigns
`base_url = os.path.dirname(filepath)` and uses it — the original reference
is discarded, contrary to the claim (and to the source's own trailing
comment "Let's stick to url for id"). -/
theorem local_file_base_url_bug :
    html_to_atom_base_url "file:///tmp/page.html" = "/tmp" ∧
    html_to_atom_base_url "file:///tmp/page.html" ≠ "file:///tmp/page.html" ∧
    buildBaseShell (html_to_atom_base_url "file:///tmp/page.html") now0 =
      buildBaseShell "/tmp" now0 := by
  refine ⟨by decide, by decide, rfl⟩

/-- Claim C6 (amended): when a matched item has no anchor, the resolved
`href` is `""` and `urljoin(base_url, "")` returns the base URL itself, so
the record's canonical URL (used as both entry id and link) is the base URL
— not the empty string (see the counterexample); when the first anchor
carries an href, the canonical URL is that href resolved against the base. -/
theorem canonical_url_resolution (m : HtmlNode) (base : String)
    (now : Datetime) (ltz : List String) :
    (findFirst anchorCond m = none →
      (extractItemT base now ltz m).2.id = base ∧
      (extractItemT base now ltz m).2.link = base) ∧
    (∀ a hr, findFirst anchorCond m = some a → a.attr "href" = some hr →
      (extractItemT base now ltz m).2.id = urljoin base hr ∧
      (extractItemT base now ltz m).2.link = urljoin base hr) := by
  constructor
  · intro hf
    unfold extractItemT
    rw [hf]
    unfold extractItemWith
    dsimp only
    exact ⟨urljoin_empty base, urljoin_empty base⟩
  · intro a hr hf hh
    unfold extractItemT
    rw [hf]
    dsimp only
    rw [hh]
    unfold extractItemWith
    dsimp only
    exact ⟨rfl, rfl⟩

/-- Claim C6 witness: the no-anchor and with-anchor branches at concrete
items. -/
theorem canonical_url_resolution_witness :
    ((extractItemT "https://ollama.com/search" now0 ["utc"] liNoAnchor).2.id =
      "https://ollama.com/search" ∧
     (extractItemT "https://ollama.com/search" now0 ["utc"] liNoAnchor).2.link =
      "https://ollama.com/search") ∧
    ((extractItemT "https://ollama.com/search" now0 ["utc"] liDup).2.id =
      urljoin "https://ollama.com/search" "/library/m" ∧
     (extractItemT "https://ollama.com/search" now0 ["utc"] liDup).2.link =
      urljoin "https://ollama.com/search" "/library/m") :=
  ⟨(canonical_url_resolution liNoAnchor "https://ollama.com/search" now0
      ["utc"]).1 rfl,
   (canonical_url_resolution liDup "https://ollama.com/search" now0
      ["utc"]).2 _ _ rfl rfl⟩

/-- Claim C6 counterexample: a document whose only item has no anchor — the
produced entry id is the base URL, which is not the empty string the claim
requires. -/
theorem canonical_url_empty_counterexample :
    ((create_base_feed_and_entries soupNoAnchor "https://ollama.com/search"
      now0 ["utc"]).toOption.map (fun r => r.2.map (fun de => de.2.id))) =
      some ["https://ollama.com/search"] ∧
    ("https://ollama.com/search" : String) ≠ "" := by
  refine ⟨by decide, by decide⟩

/-- Claim C7 (amended): the id of each produced entry is its item's canonical
URL, and the program performs no deduplication, so the entries of one
document (the full sorted list, or its recent-20 selection) have pairwise
distinct ids exactly on the assumption that the matched items' canonical
URLs are pairwise distinct; without that assumption the invariant fails
(see the counterexample). -/
theorem entry_ids_unique (soup : HtmlNode) (base : String) (now : Datetime)
    (ltz : List String)
    (hok : ∀ m ∈ findAll modelCond soup, anchorHrefOk m = true)
    (hdist : ((findAll modelCond soup).map
      (fun m => (extractItemT base now ltz m).2.id)).Pairwise (· ≠ ·)) :
    ∀ data, create_base_feed_and_entries soup base now ltz =
        .ok (buildBaseShell base now, data) →
      ((pySortDesc data).map (fun de => de.2.id)).Pairwise (· ≠ ·) ∧
      (((pySortDesc data).take 20).map (fun de => de.2.id)).Pairwise (· ≠ ·) := by
  intro data hdata
  have hmap := @create_base_ok soup base now ltz hok
  rw [hdata] at hmap
  simp only [Except.ok.injEq, Prod.mk.injEq, true_and] at hmap
  have hdist2 : (data.map (fun de => de.2.id)).Pairwise (· ≠ ·) := by
    rw [hmap, List.map_map]
    exact hdist
  have hperm : List.Perm ((pySortDesc data).map (fun de => de.2.id))
      (data.map (fun de => de.2.id)) :=
    (List.perm_insertionSort rDesc data).map _
  have hfull : ((pySortDesc data).map (fun de => de.2.id)).Pairwise (· ≠ ·) :=
    (hperm.pairwise_iff (fun h => h.symm)).mpr hdist2
  refine ⟨hfull, ?_⟩
  rw [List.map_take]
  exact hfull.sublist (List.take_sublist 20 _)

/-- Claim C7 witness at a two-item document with distinct model URLs. -/
theorem entry_ids_unique_witness :
    ((pySortDesc ((findAll modelCond soup2).map
      (extractItemT "https://ollama.com/search" now0 ["utc"]))).map
      (fun de => de.2.id)).Pairwise (· ≠ ·) ∧
    (((pySortDesc ((findAll modelCond soup2).map
      (extractItemT "https://ollama.com/search" now0 ["utc"]))).take 20).map
      (fun de => de.2.id)).Pairwise (· ≠ ·) :=
  entry_ids_unique soup2 "https://ollama.com/search" now0 ["utc"]
    (by decide) (by decide) _ (create_base_ok (by decide))

/-- Claim C7 counterexample: two identical matched items produce two entries
with the same id in the one produced document — ids are not pairwise
distinct. -/
theorem entry_ids_unique_counterexample :
    ((create_base_feed_and_entries soupDup "https://ollama.com/search" now0
      ["utc"]).toOption.map (fun r => (pySortDesc r.2).map (fun de => de.2.id))) =
      some ["https://ollama.com/library/m", "https://ollama.com/library/m"] ∧
    ¬ (["https://ollama.com/library/m",
        "https://ollama.com/library/m"].Pairwise (fun a b => a ≠ b)) := by
  refine ⟨by decide, by decide⟩

/-- Claim C8 (confirmed): for a matched item without a description
paragraph, the entry summary is the empty string, and the content fragment
omits the description paragraph while still containing both the Pulls and
the Tags paragraphs, with `"N/A"` substituted for each missing counter. -/
theorem missing_description_entry (m : HtmlNode) (base : String)
    (now : Datetime) (ltz : List String)
    (hdesc : findFirst descCond m = none) :
    (extractItemT base now ltz m).2.summary = "" ∧
    (extractItemT base now ltz m).2.content =
      "<p>Pulls: " ++ (match findFirst pullCond m with
        | some n => n.texts
        | none => "N/A") ++ "</p>" ++
      ("<p>Tags: " ++ (match findFirst tagCountCond m with
        | some n => n.texts
        | none => "N/A") ++ "</p>") ∧
    (findFirst pullCond m = none → findFirst tagCountCond m = none →
      (extractItemT base now ltz m).2.content =
        "<p>Pulls: N/A</p><p>Tags: N/A</p>") := by
  refine ⟨?_, ?_, ?_⟩
  · unfold extractItemT extractItemWith
    rw [hdesc]
  · unfold extractItemT extractItemWith
    rw [hdesc]
    dsimp only
    rw [if_pos (show (("" : String) == "") = true from rfl),
      string_empty_append]
  · intro hp ht
    unfold extractItemT extractItemWith
    rw [hdesc, hp, ht]
    dsimp only
    decide

/-- Claim C8 witness: an item with no description paragraph and no counter
spans. -/
theorem missing_description_entry_witness :
    (extractItemT "https://ollama.com/search" now0 [] liNoDesc).2.summary = "" ∧
    (extractItemT "https://ollama.com/search" now0 [] liNoDesc).2.content =
      "<p>Pulls: " ++ "N/A" ++ "</p>" ++ ("<p>Tags: " ++ "N/A" ++ "</p>") ∧
    (findFirst pullCond liNoDesc = none →
      findFirst tagCountCond liNoDesc = none →
      (extractItemT "https://ollama.com/search" now0 [] liNoDesc).2.content =
        "<p>Pulls: N/A</p><p>Tags: N/A</p>") :=
  missing_description_entry liNoDesc "https://ollama.com/search" now0 [] rfl

/-- Claim C9 (confirmed): producing one output variant leaves the shared
base feed element untouched: after the writes, object 0 (the base element)
still holds exactly the shell with its five metadata children and no entry
children, and each of the two serialized documents is that same shell with
its own entry list appended — so the second variant is built from an
identical shell. -/
theorem base_shell_unchanged (base_url : String) (now : Datetime)
    (sorted : List (Datetime × AtomEntry)) (fs : String → Bool) :
    (html_to_atom_save_phase (buildBaseShell base_url now) sorted fs).1.objs.get? 0 =
      some (buildBaseShell base_url now) ∧
    (buildBaseShell base_url now).childrenOf =
      [.node "title" [] (some "Ollama models") [],
       .node "id" [] (some base_url) [],
       .node "author" [] none [.node "name" [] (some "Model Library") []],
       .node "link" [("href", base_url), ("rel", "self")] none [],
       .node "updated" [] (some (isoDatetime now)) []] ∧
    (html_to_atom_save_phase (buildBaseShell base_url now) sorted fs).2.1.1 =
      (buildBaseShell base_url now).appendList
        (sorted.map (fun de => entryToTree de.2)) ∧
    (html_to_atom_save_phase (buildBaseShell base_url now) sorted fs).2.1.2 =
      (buildBaseShell base_url now).appendList
        ((sorted.take 20).map (fun de => entryToTree de.2)) :=
  ⟨(save_phase_spec _ sorted fs).1, rfl,
   (save_phase_spec _ sorted fs).2.1, (save_phase_spec _ sorted fs).2.2⟩

/-- Claim C10 (confirmed): when the write of `atom.xml` fails with an
I/O error, the failure is reported (the caught `IOError` is printed) and the
run continues: the write of `atom-recent-20.xml` is still attempted. -/
theorem write_failure_independent (shell : XTree)
    (sorted : List (Datetime × AtomEntry)) (fs : String → Bool)
    (hfail : fs "atom.xml" = false) :
    (html_to_atom_save_phase shell sorted fs).2.2 =
      [⟨"atom.xml", false, some "Error writing file atom.xml"⟩,
       ⟨"atom-recent-20.xml", fs "atom-recent-20.xml",
        if fs "atom-recent-20.xml" then none
        else some "Error writing file atom-recent-20.xml"⟩] ∧
    ((html_to_atom_save_phase shell sorted fs).2.2).map
      WriteAttempt.filename = ["atom.xml", "atom-recent-20.xml"] := by
  rw [save_phase_writes, hfail]
  exact ⟨rfl, rfl⟩

/-- Claim C10 witness: a filesystem on which every write fails. -/
theorem write_failure_independent_witness :
    (html_to_atom_save_phase (buildBaseShell "b" now0) []
      (fun _ => false)).2.2 =
      [⟨"atom.xml", false, some "Error writing file atom.xml"⟩,
       ⟨"atom-recent-20.xml", false,
        some "Error writing file atom-recent-20.xml"⟩] ∧
    ((html_to_atom_save_phase (buildBaseShell "b" now0) []
      (fun _ => false)).2.2).map WriteAttempt.filename =
      ["atom.xml", "atom-recent-20.xml"] :=
  write_failure_independent (buildBaseShell "b" now0) [] (fun _ => false) rfl
